import Mathlib

/-!
Verification of the NAO choreography planner.

The repository contains two near-identical best-first planners:
`main.py` (three-tier priority with a filler-move counter) and
`choreography_planner.py` (goal-dominant priority).  Each is embedded
below in its own namespace (`Main`, `Planner`) as executable Lean
definitions; Python floats are modelled as exact rationals and Python
dicts as association lists in their literal insertion order.

This first section proves configuration-independent list lemmas:
greedy subsequence matching (the `goals_completed` counter is a greedy
matcher, and greedy matching finds the longest prefix of the goal list
occurring as an order-preserving subsequence) and bounds on runs of
consecutive equal elements.
-/

section GreedyMatch

variable {α : Type} [DecidableEq α]

/-- The greedy prefix-matching counter: starting from match count `c`,
scan the list and advance the count whenever the current element equals
the next unmatched element of `gs`.  This is exactly how the planner's
`goals_completed` field evolves as moves are appended. -/
def greedyFrom (gs : List α) : List α → Nat → Nat
  | [], c => c
  | m :: seq, c => greedyFrom gs seq (if gs[c]? = some m then c + 1 else c)

theorem greedyFrom_append (gs xs ys : List α) (c : Nat) :
    greedyFrom gs (xs ++ ys) c = greedyFrom gs ys (greedyFrom gs xs c) := by
  induction xs generalizing c with
  | nil => rfl
  | cons x xs ih => simp [greedyFrom, ih]

theorem le_greedyFrom (gs : List α) : ∀ (seq : List α) (c : Nat),
    c ≤ greedyFrom gs seq c := by
  intro seq
  induction seq with
  | nil => intro c; exact Nat.le_refl c
  | cons m rest ih =>
    intro c
    refine Nat.le_trans ?_ (ih (if gs[c]? = some m then c + 1 else c))
    split <;> omega

theorem greedyFrom_mono (gs : List α) : ∀ (seq : List α) (c c' : Nat),
    c ≤ c' → greedyFrom gs seq c ≤ greedyFrom gs seq c' := by
  intro seq
  induction seq with
  | nil => intro c c' h; exact h
  | cons m rest ih =>
    intro c c' h
    simp only [greedyFrom]
    apply ih
    rcases Nat.eq_or_lt_of_le h with rfl | hlt
    · exact Nat.le_refl _
    · by_cases h1 : gs[c]? = some m
      · rw [if_pos h1]
        by_cases h2 : gs[c']? = some m
        · rw [if_pos h2]; omega
        · rw [if_neg h2]; omega
      · rw [if_neg h1]
        by_cases h2 : gs[c']? = some m
        · rw [if_pos h2]; omega
        · rw [if_neg h2]; omega

theorem greedyFrom_le_length (gs : List α) : ∀ (seq : List α) (c : Nat),
    c ≤ gs.length → greedyFrom gs seq c ≤ gs.length := by
  intro seq
  induction seq with
  | nil => intro c h; exact h
  | cons m rest ih =>
    intro c h
    simp only [greedyFrom]
    apply ih
    by_cases hm : gs[c]? = some m
    · rw [if_pos hm]
      obtain ⟨hlt, -⟩ := List.getElem?_eq_some.mp hm
      omega
    · rw [if_neg hm]; exact h

theorem greedyFrom_take_sublist (gs : List α) : ∀ (seq : List α) (c : Nat),
    c ≤ gs.length →
    ((gs.drop c).take (greedyFrom gs seq c - c)).Sublist seq := by
  intro seq
  induction seq with
  | nil =>
    intro c _
    simp [greedyFrom]
  | cons m rest ih =>
    intro c hc
    simp only [greedyFrom]
    by_cases hm : gs[c]? = some m
    · rw [if_pos hm]
      obtain ⟨hlt, hget⟩ := List.getElem?_eq_some.mp hm
      have hG : c + 1 ≤ greedyFrom gs rest (c + 1) := le_greedyFrom gs rest (c + 1)
      have hdrop : gs.drop c = m :: gs.drop (c + 1) := by
        rw [List.drop_eq_getElem_cons hlt, hget]
      rw [hdrop]
      have harith : greedyFrom gs rest (c + 1) - c =
          (greedyFrom gs rest (c + 1) - (c + 1)) + 1 := by omega
      rw [harith, List.take_succ_cons]
      exact List.Sublist.cons₂ m (ih (c + 1) hlt)
    · rw [if_neg hm]
      exact List.Sublist.cons m (ih c hc)

theorem greedyFrom_ge_of_sublist (gs : List α) : ∀ (seq : List α) (c k : Nat),
    c + k ≤ gs.length →
    ((gs.drop c).take k).Sublist seq → c + k ≤ greedyFrom gs seq c := by
  intro seq
  induction seq with
  | nil =>
    intro c k hck hsub
    have hlen : ((gs.drop c).take k).length = k := by
      rw [List.length_take, List.length_drop]
      omega
    have hnil : ((gs.drop c).take k) = [] := List.sublist_nil.mp hsub
    rw [hnil] at hlen
    obtain rfl : k = 0 := by simpa using hlen.symm
    simp [greedyFrom]
  | cons m rest ih =>
    intro c k hck hsub
    simp only [greedyFrom]
    cases k with
    | zero =>
      have h1 : c ≤ (if gs[c]? = some m then c + 1 else c) := by split <;> omega
      have h2 := le_greedyFrom gs rest (if gs[c]? = some m then c + 1 else c)
      omega
    | succ j =>
      have hlt : c < gs.length := by omega
      have hdrop : gs.drop c = gs[c] :: gs.drop (c + 1) :=
        List.drop_eq_getElem_cons hlt
      rw [hdrop, List.take_succ_cons] at hsub
      rcases List.sublist_cons_iff.mp hsub with hsub' | ⟨r, hr, hrsub⟩
      · have h1 : c + (j + 1) ≤ greedyFrom gs rest c := by
          apply ih c (j + 1) hck
          rw [hdrop, List.take_succ_cons]
          exact hsub'
        have h2 : greedyFrom gs rest c ≤
            greedyFrom gs rest (if gs[c]? = some m then c + 1 else c) := by
          apply greedyFrom_mono
          split <;> omega
        omega
      · obtain ⟨hhead, htail⟩ := List.cons.inj hr
        have hm : gs[c]? = some m := by
          rw [List.getElem?_eq_getElem hlt, hhead]
        rw [if_pos hm]
        have htsub : ((gs.drop (c + 1)).take j).Sublist rest := by
          rw [htail]; exact hrsub
        have := ih (c + 1) j (by omega) htsub
        omega

end GreedyMatch

section RunBound

variable {α : Type} [DecidableEq α]

/-- Predicate `noLongRun k l`: no element occurs more than `k` times
consecutively in `l`: no decomposition of `l` exhibits `k + 1` adjacent
copies of the same element. -/
def noLongRun (k : Nat) (l : List α) : Prop :=
  ∀ (m : α) (pre post : List α), l ≠ pre ++ List.replicate (k + 1) m ++ post

theorem noLongRun_nil (k : Nat) : noLongRun k ([] : List α) := by
  intro m pre post h
  have := congrArg List.length h
  simp [List.length_replicate] at this
  omega

theorem append_singleton_run_split {l : List α} {a m : α} {pre post : List α}
    {k : Nat} (h : l ++ [a] = pre ++ List.replicate (k + 1) m ++ post) :
    (∃ post', post = post' ++ [a] ∧ l = pre ++ List.replicate (k + 1) m ++ post') ∨
    (post = [] ∧ a = m ∧ l = pre ++ List.replicate k m) := by
  rcases List.eq_nil_or_concat post with hpost | ⟨q, b, hpost⟩
  · subst hpost
    right
    rw [List.append_nil] at h
    rw [List.replicate_succ' (n := k), ← List.append_assoc] at h
    have := List.append_inj' h (by simp)
    refine ⟨rfl, ?_, this.1⟩
    have h2 := this.2
    simpa using h2
  · rw [List.concat_eq_append] at hpost
    subst hpost
    left
    rw [← List.append_assoc] at h
    have := List.append_inj' h (by simp)
    have ha : a = b := by simpa using this.2
    subst ha
    exact ⟨q, rfl, this.1⟩

theorem noLongRun_append {k : Nat} {l : List α} {a : α}
    (h1 : noLongRun k l) (h2 : ∀ pre, l ≠ pre ++ List.replicate k a) :
    noLongRun k (l ++ [a]) := by
  intro m pre post heq
  rcases append_singleton_run_split heq with ⟨post', _, hl⟩ | ⟨_, ham, hl⟩
  · exact h1 m pre post' hl
  · subst ham
    exact h2 pre hl

theorem run_end_facts {l pre : List α} {k : Nat} {a : α}
    (h : l = pre ++ List.replicate k a) :
    k ≤ l.length ∧ l.drop (l.length - k) = List.replicate k a := by
  subst h
  constructor
  · simp [List.length_replicate]
  · have hlen : (pre ++ List.replicate k a).length - k = pre.length := by
      simp [List.length_replicate]
    rw [hlen, List.drop_left]

end RunBound

section SortedAssoc

/-- Lexicographic comparison of character lists, matching Python's
string ordering on code points (used to model `sorted(...)` over the
catalog keys). -/
def lexLt : List Char → List Char → Bool
  | [], [] => false
  | [], _ :: _ => true
  | _ :: _, [] => false
  | a :: as, b :: bs => if a < b then true else if b < a then false else lexLt as bs

def strLtb (a b : String) : Bool := lexLt a.data b.data

variable {β : Type}

/-- Insert into a list sorted by the Boolean relation `lt` (structural
insertion sort, used because Python's `sorted` is modelled over an
association list with pairwise distinct keys, where any correct sort
produces the same result). -/
def insertSorted (lt : β → β → Bool) (a : β) : List β → List β
  | [] => [a]
  | b :: bs => if lt a b then a :: b :: bs else b :: insertSorted lt a bs

def sortByLt (lt : β → β → Bool) : List β → List β
  | [] => []
  | a :: as => insertSorted lt a (sortByLt lt as)

theorem mem_insertSorted (lt : β → β → Bool) (a x : β) :
    ∀ (l : List β), x ∈ insertSorted lt a l ↔ x = a ∨ x ∈ l := by
  intro l
  induction l with
  | nil => simp [insertSorted]
  | cons b bs ih =>
    simp only [insertSorted]
    split
    · simp [List.mem_cons]
    · simp only [List.mem_cons, ih]
      tauto

theorem mem_sortByLt (lt : β → β → Bool) (x : β) :
    ∀ (l : List β), x ∈ sortByLt lt l ↔ x ∈ l := by
  intro l
  induction l with
  | nil => simp [sortByLt]
  | cons a as ih =>
    simp only [sortByLt, mem_insertSorted, ih, List.mem_cons]

/-- In an association list with pairwise distinct keys, membership of a
pair determines the result of `lookup` on its key. -/
theorem lookup_eq_of_mem_of_nodup {γ : Type} [DecidableEq γ]
    {l : List (γ × β)} (hn : (l.map Prod.fst).Nodup) {p : γ × β}
    (hp : p ∈ l) : l.lookup p.1 = some p.2 := by
  induction l with
  | nil => cases hp
  | cons q rest ih =>
    rcases List.mem_cons.mp hp with hq | hq
    · subst hq
      simp [List.lookup]
    · have hne : q.1 ≠ p.1 := by
        simp only [List.map_cons, List.nodup_cons] at hn
        intro hcontra
        exact hn.1 (hcontra ▸ List.mem_map_of_mem Prod.fst hq)
      simp only [List.lookup, beq_eq_false_iff_ne.mpr (Ne.symm hne)]
      exact ih (by simp only [List.map_cons, List.nodup_cons] at hn; exact hn.2) hq

end SortedAssoc

section ChainAppend

variable {α : Type}

theorem chain_append_singleton {R : α → α → Prop} {a b : α} :
    ∀ {l : List α}, List.Chain R a l → R (l.getLastD a) b →
    List.Chain R a (l ++ [b]) := by
  intro l
  induction l generalizing a with
  | nil =>
    intro _ hr
    exact List.Chain.cons hr List.Chain.nil
  | cons x xs ih =>
    intro hch hr
    cases hch with
    | cons hax hxs =>
      refine List.Chain.cons hax (ih hxs ?_)
      rwa [List.getLastD_cons] at hr

end ChainAppend

section NodupGetElem

variable {α : Type}

theorem getElem?_ne_of_nodup {l : List α} (h : l.Nodup) {i j : Nat}
    (hij : i ≠ j) {x y : α} (hx : l[i]? = some x) (hy : l[j]? = some y) :
    x ≠ y := by
  obtain ⟨hi, hxi⟩ := List.getElem?_eq_some.mp hx
  obtain ⟨hj, hyj⟩ := List.getElem?_eq_some.mp hy
  intro hxy
  apply hij
  apply List.Nodup.getElem_inj_iff h |>.mp
  rw [hxi, hyj, hxy]

end NodupGetElem

/-- The last `k` entries of a list (Python's `sequence[-k:]` when the
list has at least `k` entries). -/
def lastN {α : Type} (k : Nat) (l : List α) : List α := l.drop (l.length - k)

/-- Admissible results of Python's `list(set(raw))`: the same member
set, each member once, in *some* order.  The order is not determined by
`raw`: it depends on the interpreter's randomized string hash seed. -/
def setListAdmissible (raw out : List String) : Prop :=
  out.Nodup ∧ (∀ m ∈ out, m ∈ raw) ∧ (∀ m ∈ raw, m ∈ out)

namespace Main

/-- Ordered list of mandatory goal moves (`goals` in `main.py`). -/
def goals : List String :=
  ["StandInit", "Hello", "BlowKisses", "StayingAlive", "WipeForehead", "Sit",
   "StandZero", "VOnEyes", "SitRelax", "Stand", "Crouch"]

/-- Allowed-predecessor table (`predecessors` in `main.py`), as an
association list in the dict literal's insertion order.  `START` is the
sentinel predecessor that allows a move to begin the sequence. -/
def predecessors : List (String × List String) :=
  [("StandInit", ["START"]),
   ("Hello", ["Wave", "Clap", "Glory", "Joy", "ComeOn", "Bow", "StandInit"]),
   ("BlowKisses", ["Stand", "ArmDance", "ArmDanceDX", "ArmDanceSX", "Bow", "Wave", "Hello"]),
   ("StandZero", ["Sit", "SitRelax", "RotationFeet", "ArmDanceDX", "ArmDanceSX",
                  "BirthdayDance", "Hello", "Stand", "BlowKisses", "Wave", "Bow", "Glory"]),
   ("Rhythm", ["ArmDance", "ArmDanceDX", "ArmDanceSX", "Stand", "Bow",
               "RotationFeet", "StandZero", "Wave"]),
   ("Stand", ["Sit", "SitRelax", "RotationFeet", "BirthdayDance", "Hello", "StandZero",
              "Rhythm", "WipeForehead", "Bow", "Wave", "Glory", "Clap", "Dab"]),
   ("StayingAlive", ["PulpFiction", "DiagonalRight", "RotationFeet", "TheRobot",
                     "Bow", "Stand", "StandZero"]),
   ("WipeForehead", ["Stand", "StandZero", "Wave", "Glory", "Clap", "Bow", "StayingAlive"]),
   ("VOnEyes", ["BlowKisses", "Hello", "Wave", "Joy", "ComeOn", "Stand", "WipeForehead"]),
   ("Sit", ["Dab", "Stand", "StandZero", "VOnEyes"]),
   ("SitRelax", ["PulpFiction", "DiagonalRight", "RotationFeet", "TheRobot",
                 "Bow", "Stand", "StandZero"]),
   ("Disco", ["Stand", "StandZero", "TheRobot", "PulpFiction",
              "DiagonalRight", "RotationFeet", "Crouch"]),
   ("Crouch", ["SitRelax", "Crouch", "Dab", "Disco"]),
   ("Wave", ["START", "StandInit", "Hello", "Stand", "StandZero", "Clap",
             "Glory", "Joy", "ComeOn", "Bow"]),
   ("Clap", ["START", "StandInit", "Wave", "Hello", "Stand", "Joy", "ComeOn",
             "Glory", "Bow", "StandZero"]),
   ("Glory", ["Wave", "Clap", "Stand", "StandZero", "Bow", "Joy", "ComeOn"]),
   ("Joy", ["Clap", "Glory", "Hello", "Wave", "ComeOn", "Bow", "Stand"]),
   ("ComeOn", ["Clap", "Joy", "Hello", "Wave", "Glory", "Bow", "Stand"]),
   ("Bow", ["Stand", "StandZero", "Glory", "Wave", "Clap", "Joy", "ComeOn"]),
   ("ArmDance", ["Stand", "StandZero", "Bow", "Wave", "Clap", "Glory"]),
   ("ArmDanceDX", ["Stand", "Bow", "Wave", "Glory", "Clap", "StandZero"]),
   ("ArmDanceSX", ["Stand", "Bow", "Wave", "Glory", "Clap", "StandZero"]),
   ("PulpFiction", ["Stand", "StandZero", "DiagonalRight", "RotationFeet",
                    "Wave", "Clap", "Bow"]),
   ("RotationFeet", ["START", "StandInit", "Stand", "StandZero", "DiagonalRight",
                     "Wave", "Glory", "Bow"]),
   ("DiagonalRight", ["Stand", "StandZero", "RotationFeet", "PulpFiction",
                      "Wave", "Bow", "Clap"]),
   ("TheRobot", ["Stand", "StandZero", "PulpFiction", "DiagonalRight",
                 "RotationFeet", "Bow"]),
   ("BirthdayDance", ["Stand", "StandZero", "Wave", "Clap", "Bow"]),
   ("Dab", ["Stand", "StandZero", "Bow", "Glory", "Wave", "Clap",
            "WipeForehead", "VOnEyes"]),
   ("DanceMove", ["Stand", "StandZero", "Wave", "Bow", "Clap"])]

/-- Durations in seconds (`durations` in `main.py`); moves not listed
fall back to `DEFAULT_DURATION`.  Python floats are modelled as exact
rationals. -/
def durations : List (String × ℚ) :=
  [("ArmDance", 10.353), ("ArmDanceDX", 5.097), ("BlowKisses", 9.867),
   ("Bow", 3.994), ("Clap", 4.180), ("Crouch", 5.435), ("Dab", 3.231),
   ("Disco", 5.152), ("Rhythm", 3.099), ("StandInit", 1.410),
   ("StayingAlive", 6.030), ("VOnEyes", 6.049)]

def TARGET_TIME : ℚ := 110
def MIN_TIME : ℚ := 100
def MAX_TIME : ℚ := 125
def DEFAULT_DURATION : ℚ := 5
def MAX_EXPANSIONS : Nat := 10000
def MAX_STEPS : Nat := 50
def MAX_CONSECUTIVE_REPEATS : Nat := 3
def ALLOW_POST_FILL : Bool := true
def KEEP_TOP_K : Nat := 5

/-- A search state (`State.__init__` fields in `main.py`): the partial
move sequence, the count of goal-list entries completed in order, the
accumulated duration, and the count of non-goal-advancing (filler)
moves. -/
structure State where
  sequence : List String
  goals_completed : Nat
  total_time : ℚ
  filler_moves : Nat

def get_move_duration (move : String) : ℚ :=
  (durations.lookup move).getD DEFAULT_DURATION

def can_follow (prev_move next_move : String) : Bool :=
  match predecessors.lookup next_move with
  | none => false
  | some ps => ps.contains prev_move

/-- Method `State._compute_heuristic`: sum of the durations of the goals not
yet completed. -/
def heuristic_value (s : State) : ℚ :=
  ((goals.drop s.goals_completed).map get_move_duration).sum

/-- The three-tier priority computed in `State.__init__` of `main.py`:
a goal penalty (weight 10000), a filler penalty (weight 100, only when
all goals are done and fewer than 5 fillers were appended), and a time
penalty (distance of the projected final time outside
`[MIN_TIME, MAX_TIME]`). -/
def priority (s : State) : ℚ :=
  let goal_penalty : ℚ := ((goals.length : ℚ) - (s.goals_completed : ℚ)) * 10000
  let filler_penalty : ℚ :=
    if s.goals_completed = goals.length ∧ s.filler_moves < 5
    then ((5 : ℚ) - (s.filler_moves : ℚ)) * 100 else 0
  let estimated_final_time : ℚ := s.total_time + heuristic_value s
  let time_penalty : ℚ :=
    if estimated_final_time < MIN_TIME then MIN_TIME - estimated_final_time
    else if estimated_final_time > MAX_TIME then estimated_final_time - MAX_TIME
    else 0
  goal_penalty + filler_penalty + time_penalty

/-- The catalog in the deterministic iteration order of
`sorted(predecessors.items())` used by `get_valid_next_moves` in
`main.py`. -/
def sortedPredecessors : List (String × List String) :=
  sortByLt (fun p q => strLtb p.1 q.1) predecessors

/-- The accumulated `valid_moves` list of `get_valid_next_moves` in
`main.py`, before the final `list(set(valid_moves))`: first the
privileged next-goal candidate, then the catalog scan (skipping
already-completed goals, transitions not allowed by the predecessor
table, and moves equal to all of the last `MAX_CONSECUTIVE_REPEATS`
entries of the sequence). -/
def valid_moves_acc (current_move : String) (goals_completed : Nat)
    (sequence : List String) : List String :=
  if goals.length ≤ goals_completed ∧ ALLOW_POST_FILL = false then []
  else
    (match goals[goals_completed]? with
     | some next_goal => if can_follow current_move next_goal then [next_goal] else []
     | none => []) ++
    (sortedPredecessors.filterMap fun mp =>
      if mp.1 ∉ goals.take goals_completed ∧ current_move ∈ mp.2 ∧
         ¬(MAX_CONSECUTIVE_REPEATS ≤ sequence.length ∧
           ∀ x ∈ lastN MAX_CONSECUTIVE_REPEATS sequence, x = mp.1)
      then some mp.1 else none)

/-- Function `get_valid_next_moves` of `main.py`.  The source ends with
`list(set(valid_moves))`, whose order depends on the interpreter's
randomized string hashing; this embedding fixes the first-occurrence
order (`dedup`).  The member set is faithful; the order
underdetermination is the subject of C6. -/
def get_valid_next_moves (current_move : String) (goals_completed : Nat)
    (sequence : List String) : List String :=
  (valid_moves_acc current_move goals_completed sequence).dedup

/-- The body of the `for move in next_moves` loop of `expand_state`:
extend the sequence, add the duration, advance `goals_completed` when
the move is exactly the next goal and otherwise count a filler. -/
def applyMove (s : State) (move : String) : State :=
  { sequence := s.sequence ++ [move]
    goals_completed :=
      if goals[s.goals_completed]? = some move
      then s.goals_completed + 1 else s.goals_completed
    total_time := s.total_time + get_move_duration move
    filler_moves :=
      if goals[s.goals_completed]? = some move
      then s.filler_moves else s.filler_moves + 1 }

/-- Function `expand_state` of `main.py`: no successors at `MAX_STEPS`,
otherwise one successor per valid next move of the last move of the
sequence (`START` when the sequence is empty). -/
def expand_state (s : State) : List State :=
  if MAX_STEPS ≤ s.sequence.length then []
  else (get_valid_next_moves (s.sequence.getLastD "START")
          s.goals_completed s.sequence).map (applyMove s)

def is_valid_solution (s : State) : Bool := goals.length ≤ s.goals_completed

/-- The state `State([], 0, 0.0, 0)` pushed first in `find_choreography`. -/
def initial_state : State := ⟨[], 0, 0, 0⟩

/-- States reachable from the initial state by repeated expansion. -/
inductive Reach : State → Prop
  | init : Reach initial_state
  | step {s s' : State} : Reach s → s' ∈ expand_state s → Reach s'

/-- States that can enter the frontier of `find_choreography`: the loop
expands a popped state only when it is not yet a solution (solutions
are recorded and `continue`d past). -/
inductive LoopReach : State → Prop
  | init : LoopReach initial_state
  | step {s s' : State} : LoopReach s → s.goals_completed < goals.length →
      s' ∈ expand_state s → LoopReach s'

end Main

namespace Main

/-- A frontier entry: the `(priority, counter, state)` tuple pushed on
the heap in `find_choreography`. -/
structure Entry where
  pri : ℚ
  ctr : Nat
  st : State

/-- The mutable data of the `find_choreography` loop. -/
structure SearchConfig where
  pq : List Entry
  counter : Nat
  visited : List (List String × Nat)
  expansions : Nat
  solutions : List State
  best : Option State

/-- Heap order on entries: `heapq` pops the least
`(priority, counter)` pair (counters are unique, so the state field is
never compared). -/
def entryLeb (a b : Entry) : Bool :=
  decide (a.pri < b.pri) || (decide (a.pri = b.pri) && decide (a.ctr ≤ b.ctr))

/-- Extract-min from the frontier, modelling `heapq.heappop`. -/
def popMin : List Entry → Option (Entry × List Entry)
  | [] => none
  | e :: es =>
    match popMin es with
    | none => some (e, [])
    | some (e2, rest) => if entryLeb e e2 then some (e, es) else some (e2, e :: rest)

/-- Push successor states with consecutive insertion counters,
modelling the `heapq.heappush` loop over `expand_state`. -/
def pushAll : List Entry → Nat → List State → List Entry × Nat
  | pq, ctr, [] => (pq, ctr)
  | pq, ctr, st :: sts => pushAll (pq ++ [⟨priority st, ctr, st⟩]) (ctr + 1) sts

/-- Update rule `if best_solution is None or current.priority < best.priority`. -/
def updateBest (best : Option State) (s : State) : Option State :=
  match best with
  | none => some s
  | some b => if priority s < priority b then some s else some b

/-- The dedup key `(tuple(sequence), goals_completed)`. -/
def stateKey (s : State) : List String × Nat := (s.sequence, s.goals_completed)

/-- One iteration of the `while pq` loop of `find_choreography`:
pop the minimum entry; discard it if its key was already visited;
otherwise mark it visited and either record it as a solution (when all
goals are completed) or push its expansions and count one expansion.
`none` when the frontier is empty. -/
def stepOnce (c : SearchConfig) : Option SearchConfig :=
  match popMin c.pq with
  | none => none
  | some (e, rest) =>
    if stateKey e.st ∈ c.visited then
      some { c with pq := rest }
    else
      if is_valid_solution e.st then
        some { c with
          pq := rest
          visited := stateKey e.st :: c.visited
          solutions := c.solutions ++ [e.st]
          best := updateBest c.best e.st }
      else
        let pc := pushAll rest c.counter (expand_state e.st)
        some { c with
          pq := pc.1
          counter := pc.2
          visited := stateKey e.st :: c.visited
          expansions := c.expansions + 1 }

/-- Iterated `applyMove`: the state obtained by appending the given
moves in order. -/
def runMoves : State → List String → State
  | s, [] => s
  | s, m :: ms => runMoves (applyMove s m) ms

/-- Executable certificate that each listed move is generated by
`get_valid_next_moves` (and the loop guards hold) along the way. -/
def okRun : State → List String → Bool
  | _, [] => true
  | s, m :: ms =>
    decide (s.sequence.length < MAX_STEPS) &&
    decide (s.goals_completed < goals.length) &&
    (get_valid_next_moves (s.sequence.getLastD "START")
       s.goals_completed s.sequence).contains m &&
    okRun (applyMove s m) ms

/-- Spec-side decomposition of the priority (claim C3): the goal
penalty weighs the remaining goals by 10000. -/
def goalPenaltySpec (s : State) : ℚ :=
  ((goals.length : ℚ) - (s.goals_completed : ℚ)) * 10000

/-- Spec-side (claim C3): the filler penalty is nonzero only when all
goals are complete and fewer than the minimum filler count (5) of
filler moves have been appended, in which case it is
`(5 - fillerCount) * 100`. -/
def fillerPenaltySpec (s : State) : ℚ :=
  if s.goals_completed = goals.length ∧ s.filler_moves < 5
  then ((5 : ℚ) - (s.filler_moves : ℚ)) * 100 else 0

/-- Spec-side (claim C3): the time penalty is the signed distance of
the projected final time outside the `[MIN_TIME, MAX_TIME]` window
(and exactly zero inside it), written as a sum of two clamped
distances. -/
def timePenaltySpec (s : State) : ℚ :=
  max 0 (MIN_TIME - (s.total_time + heuristic_value s)) +
  max 0 ((s.total_time + heuristic_value s) - MAX_TIME)

/-- Rounding to 2 decimal places used by `save_solution`.  (Python's
`round` resolves exact half-cent ties to even; the two agree except on
such ties, which no claim depends on.) -/
def round2 (q : ℚ) : ℚ := ((round (q * 100) : ℤ) : ℚ) / 100

/-- The JSON record written by `save_solution` in `main.py`. -/
structure SolutionRecord where
  total_time : ℚ
  sequence : List String
  goals_completed : Nat
  target_time : ℚ
  time_difference : ℚ

def save_solution (s : State) : SolutionRecord :=
  { total_time := round2 s.total_time
    sequence := s.sequence
    goals_completed := s.goals_completed
    target_time := TARGET_TIME
    time_difference := round2 |s.total_time - TARGET_TIME| }

end Main

namespace Main

theorem applyMove_sequence (s : State) (m : String) :
    (applyMove s m).sequence = s.sequence ++ [m] := rfl

theorem applyMove_gc (s : State) (m : String) :
    (applyMove s m).goals_completed =
      if goals[s.goals_completed]? = some m
      then s.goals_completed + 1 else s.goals_completed := rfl

theorem applyMove_time (s : State) (m : String) :
    (applyMove s m).total_time = s.total_time + get_move_duration m := rfl

theorem predecessors_fst_nodup : (predecessors.map Prod.fst).Nodup := by decide

theorem goals_nodup : goals.Nodup := by decide

/-- Every candidate produced by `get_valid_next_moves` is a legal
successor of `current_move`, and is either the privileged next goal or
passed the consecutive-repetition guard of the catalog loop. -/
theorem mem_valid_moves {cur : String} {gc : Nat} {seq : List String} {m : String}
    (h : m ∈ get_valid_next_moves cur gc seq) :
    can_follow cur m = true ∧
    (goals[gc]? = some m ∨
     ¬(MAX_CONSECUTIVE_REPEATS ≤ seq.length ∧
       ∀ x ∈ lastN MAX_CONSECUTIVE_REPEATS seq, x = m)) := by
  rw [get_valid_next_moves, List.mem_dedup, valid_moves_acc] at h
  split at h
  · cases h
  · rw [List.mem_append] at h
    rcases h with h | h
    · split at h
      · rename_i ng hg
        split at h
        · rename_i hcf
          obtain rfl : m = ng := List.mem_singleton.mp h
          exact ⟨hcf, Or.inl hg⟩
        · cases h
      · cases h
    · rw [List.mem_filterMap] at h
      obtain ⟨mp, hmp, hif⟩ := h
      split at hif
      · rename_i hcond
        obtain rfl : mp.1 = m := by injection hif
        obtain ⟨h1, h2, h3⟩ := hcond
        have hmem : mp ∈ predecessors := (mem_sortByLt _ mp predecessors).mp hmp
        have hlk : predecessors.lookup mp.1 = some mp.2 :=
          lookup_eq_of_mem_of_nodup predecessors_fst_nodup hmem
        have hcf : can_follow cur mp.1 = true := by
          rw [can_follow, hlk]
          exact List.elem_eq_true_of_mem h2
        exact ⟨hcf, Or.inr h3⟩
      · cases hif

/-- The combined invariant of states reachable by repeated expansion:
`goals_completed` is the greedy match count of the goal list against
the sequence; consecutive moves respect the predecessor relation
starting from the sentinel `START`; the total time is the exact sum of
the durations; no move occurs more than `MAX_CONSECUTIVE_REPEATS`
times consecutively; and the sequence never ends with the currently
required next goal. -/
def stateInv (s : State) : Prop :=
  s.goals_completed = greedyFrom goals s.sequence 0 ∧
  List.Chain (fun a b => can_follow a b = true) "START" s.sequence ∧
  s.total_time = (s.sequence.map get_move_duration).sum ∧
  noLongRun MAX_CONSECUTIVE_REPEATS s.sequence ∧
  (∀ g, goals[s.goals_completed]? = some g → s.sequence.getLast? ≠ some g)

theorem reach_stateInv {s : State} (h : Reach s) : stateInv s := by
  induction h with
  | init =>
    refine ⟨rfl, List.Chain.nil, rfl, noLongRun_nil _, ?_⟩
    intro g _ hcontra
    simp [initial_state] at hcontra
  | @step s s' hr hmem ih =>
    obtain ⟨ihg, ihc, iht, ihr, ihb⟩ := ih
    rw [expand_state] at hmem
    split at hmem
    · cases hmem
    · rw [List.mem_map] at hmem
      obtain ⟨m, hmv, rfl⟩ := hmem
      obtain ⟨hcf, hdisj⟩ := mem_valid_moves hmv
      have hrun : ∀ pre, s.sequence ≠ pre ++ List.replicate MAX_CONSECUTIVE_REPEATS m := by
        intro pre heq
        rcases hdisj with hg | hng
        · apply ihb m hg
          rw [show MAX_CONSECUTIVE_REPEATS = 2 + 1 from rfl, List.replicate_succ' (n := 2),
            ← List.append_assoc] at heq
          rw [heq, List.getLast?_concat]
        · apply hng
          obtain ⟨hlen, hdropeq⟩ := run_end_facts heq
          refine ⟨hlen, ?_⟩
          intro x hx
          rw [lastN, hdropeq] at hx
          exact List.eq_of_mem_replicate hx
      refine ⟨?_, ?_, ?_, ?_, ?_⟩
      · rw [applyMove_gc, applyMove_sequence, greedyFrom_append, ← ihg]
        rfl
      · rw [applyMove_sequence]
        exact chain_append_singleton ihc hcf
      · rw [applyMove_time, applyMove_sequence, List.map_append, List.sum_append, iht]
        simp
      · rw [applyMove_sequence]
        exact noLongRun_append ihr hrun
      · intro g hg hcontra
        rw [applyMove_sequence, List.getLast?_concat] at hcontra
        obtain rfl : m = g := by injection hcontra
        rw [applyMove_gc] at hg
        by_cases hnext : goals[s.goals_completed]? = some m
        · rw [if_pos hnext] at hg
          exact getElem?_ne_of_nodup goals_nodup
            (by omega : s.goals_completed ≠ s.goals_completed + 1) hnext hg rfl
        · rw [if_neg hnext] at hg
          exact hnext hg

theorem loopReach_reach {s : State} (h : LoopReach s) : Reach s := by
  induction h with
  | init => exact Reach.init
  | step _ _ hmem ih => exact Reach.step ih hmem

theorem okRun_loopReach : ∀ (ms : List String) (s : State),
    LoopReach s → okRun s ms = true → LoopReach (runMoves s ms) := by
  intro ms
  induction ms with
  | nil =>
    intro s hr _
    exact hr
  | cons m ms ih =>
    intro s hr hok
    rw [okRun, Bool.and_eq_true, Bool.and_eq_true, Bool.and_eq_true] at hok
    obtain ⟨⟨⟨hlen, hgc⟩, hcont⟩, hrest⟩ := hok
    rw [runMoves]
    apply ih (applyMove s m) _ hrest
    apply LoopReach.step hr (of_decide_eq_true hgc)
    rw [expand_state, if_neg (by have := of_decide_eq_true hlen; omega)]
    exact List.mem_map_of_mem _ (List.mem_of_elem_eq_true hcont)

theorem loopReach_gc_le {s : State} (h : LoopReach s) :
    s.goals_completed ≤ goals.length := by
  induction h with
  | init => exact Nat.zero_le _
  | @step s s' _ hgc hmem ih =>
    rw [expand_state] at hmem
    split at hmem
    · cases hmem
    · rw [List.mem_map] at hmem
      obtain ⟨m, _, rfl⟩ := hmem
      rw [applyMove_gc]
      split <;> omega

theorem loopReach_last_goal {s : State} (h : LoopReach s)
    (hfull : s.goals_completed = goals.length) :
    s.sequence ≠ [] ∧ s.sequence.getLast? = goals.getLast? := by
  cases h with
  | init => simp [initial_state, goals] at hfull
  | @step s0 _ hr hgc hmem =>
    rw [expand_state] at hmem
    split at hmem
    · cases hmem
    · rw [List.mem_map] at hmem
      obtain ⟨m, hmv, rfl⟩ := hmem
      rw [applyMove_sequence]
      rw [applyMove_gc] at hfull
      by_cases hnext : goals[s0.goals_completed]? = some m
      · rw [if_pos hnext] at hfull
        refine ⟨by simp, ?_⟩
        rw [List.getLast?_concat, List.getLast?_eq_getElem?]
        have hidx : goals.length - 1 = s0.goals_completed := by omega
        rw [hidx, hnext]
      · rw [if_neg hnext] at hfull
        omega

theorem stepOnce_visited {c : SearchConfig} {e : Entry} {rest : List Entry}
    (hpop : popMin c.pq = some (e, rest)) (hv : stateKey e.st ∈ c.visited) :
    stepOnce c = some { c with pq := rest } := by
  rw [stepOnce, hpop]
  simp only [if_pos hv]

theorem stepOnce_solution {c : SearchConfig} {e : Entry} {rest : List Entry}
    (hpop : popMin c.pq = some (e, rest)) (hnv : stateKey e.st ∉ c.visited)
    (hsol : goals.length ≤ e.st.goals_completed) :
    stepOnce c = some { c with
      pq := rest
      visited := stateKey e.st :: c.visited
      solutions := c.solutions ++ [e.st]
      best := updateBest c.best e.st } := by
  rw [stepOnce, hpop]
  simp only [if_neg hnv]
  rw [if_pos (show is_valid_solution e.st = true from decide_eq_true hsol)]

theorem stepOnce_expanded {c : SearchConfig} {e : Entry} {rest : List Entry}
    (hpop : popMin c.pq = some (e, rest)) (hnv : stateKey e.st ∉ c.visited)
    (hns : e.st.goals_completed < goals.length) :
    stepOnce c = some { c with
      pq := (pushAll rest c.counter (expand_state e.st)).1
      counter := (pushAll rest c.counter (expand_state e.st)).2
      visited := stateKey e.st :: c.visited
      expansions := c.expansions + 1 } := by
  rw [stepOnce, hpop]
  simp only [if_neg hnv]
  rw [if_neg (show ¬is_valid_solution e.st = true from by
    rw [is_valid_solution, decide_eq_true_iff]; omega)]

end Main

namespace Planner

/-- Ordered list of mandatory goal moves (`goals` in
`choreography_planner.py`). -/
def goals : List String :=
  ["StandInit", "Hello", "BlowKisses", "StandZero", "Stand", "StayingAlive",
   "WipeForehead", "VOnEyes", "Sit", "SitRelax", "Crouch"]

/-- Allowed-predecessor table (`predecessors` in
`choreography_planner.py`), in the dict literal's insertion order. -/
def predecessors : List (String × List String) :=
  [("StandInit", ["START"]),
   ("Hello", ["Wave", "Clap", "Glory", "Joy", "ComeOn", "Bow", "StandInit"]),
   ("BlowKisses", ["Stand", "ArmDance", "ArmDanceDX", "ArmDanceSX", "Bow", "Wave", "Hello"]),
   ("StandZero", ["RotationFeet", "ArmDanceDX", "ArmDanceSX", "BirthdayDance",
                  "Hello", "Stand", "BlowKisses", "Wave", "Bow", "Glory"]),
   ("Rhythm", ["ArmDance", "ArmDanceDX", "ArmDanceSX", "Stand", "Bow",
               "RotationFeet", "StandZero", "Wave"]),
   ("Stand", ["RotationFeet", "BirthdayDance", "Hello", "StandZero", "Rhythm",
              "WipeForehead", "Bow", "Wave", "Glory", "Clap",
              "F_Crouch", "Dab__"]),
   ("StayingAlive", ["PulpFiction", "DiagonalRight", "RotationFeet", "TheRobot",
                     "Bow", "Stand", "StandZero"]),
   ("WipeForehead", ["Stand", "StandZero", "Wave", "Glory", "Clap", "Bow", "StayingAlive"]),
   ("VOnEyes", ["BlowKisses", "Hello", "Wave", "Joy", "ComeOn", "Stand", "WipeForehead"]),
   ("Sit", ["Dab__", "F_Crouch", "Stand", "StandZero", "VOnEyes"]),
   ("SitRelax", ["Sit", "F_Crouch"]),
   ("Disco", ["Stand", "StandZero", "TheRobot", "PulpFiction",
              "DiagonalRight", "RotationFeet", "F_Crouch"]),
   ("Crouch", ["Sit", "SitRelax", "F_Crouch", "Dab__", "Disco"]),
   ("Wave", ["START", "StandInit", "Hello", "Stand", "StandZero", "Clap",
             "Glory", "Joy", "ComeOn", "Bow"]),
   ("Clap", ["START", "StandInit", "Wave", "Hello", "Stand", "Joy", "ComeOn",
             "Glory", "Bow", "StandZero"]),
   ("Glory", ["Wave", "Clap", "Stand", "StandZero", "Bow", "Joy", "ComeOn"]),
   ("Joy", ["Clap", "Glory", "Hello", "Wave", "ComeOn", "Bow", "Stand"]),
   ("ComeOn", ["Clap", "Joy", "Hello", "Wave", "Glory", "Bow", "Stand"]),
   ("Bow", ["Stand", "StandZero", "Glory", "Wave", "Clap", "Joy", "ComeOn"]),
   ("ArmDance", ["Stand", "StandZero", "Bow", "Wave", "Clap", "Glory"]),
   ("ArmDanceDX", ["Stand", "Bow", "Wave", "Glory", "Clap", "StandZero"]),
   ("ArmDanceSX", ["Stand", "Bow", "Wave", "Glory", "Clap", "StandZero"]),
   ("PulpFiction", ["Stand", "StandZero", "DiagonalRight", "RotationFeet",
                    "Wave", "Clap", "Bow"]),
   ("RotationFeet", ["START", "StandInit", "Stand", "StandZero", "DiagonalRight",
                     "Wave", "Glory", "Bow"]),
   ("DiagonalRight", ["Stand", "StandZero", "RotationFeet", "PulpFiction",
                      "Wave", "Bow", "Clap"]),
   ("TheRobot", ["Stand", "StandZero", "PulpFiction", "DiagonalRight",
                 "RotationFeet", "Bow"]),
   ("BirthdayDance", ["Stand", "StandZero", "Wave", "Clap", "Bow"]),
   ("Dab__", ["Stand", "StandZero", "Bow", "Glory", "Wave", "Clap",
              "WipeForehead", "VOnEyes"]),
   ("F_Crouch", ["Stand", "StandZero", "Dab__", "Bow", "Wave",
                 "Sit", "SitRelax"]),
   ("DanceMove", ["Stand", "StandZero", "Wave", "Bow", "Clap"])]

/-- Durations in seconds (`durations` in `choreography_planner.py`). -/
def durations : List (String × ℚ) :=
  [("ArmDance", 10.353), ("ArmDanceDX", 5.097), ("BlowKisses", 9.867),
   ("Bow", 3.994), ("Clap", 4.180), ("Crouch", 30.435), ("Dab__", 3.231),
   ("Disco", 5.152), ("F_Crouch", 1.439), ("Rhythm", 3.099),
   ("StandInit", 1.410), ("StayingAlive", 6.030), ("VOnEyes", 6.049),
   ("WipeForehead", 3.0), ("Hello", 3.0), ("StandZero", 3.0), ("Stand", 3.0),
   ("Sit", 3.0), ("SitRelax", 3.0), ("Wave", 3.0), ("Glory", 3.0),
   ("Joy", 3.0), ("ComeOn", 3.0), ("ArmDanceSX", 3.0), ("PulpFiction", 3.0),
   ("RotationFeet", 3.0), ("DiagonalRight", 3.0), ("TheRobot", 3.0),
   ("BirthdayDance", 3.0), ("DanceMove", 3.0)]

def TARGET_TIME : ℚ := 120
def DEFAULT_DURATION : ℚ := 3
def MAX_EXPANSIONS : Nat := 10000
def MAX_STEPS : Nat := 50
def MAX_CONSECUTIVE_REPEATS : Nat := 3
def ALLOW_POST_FILL : Bool := true
def KEEP_TOP_K : Nat := 5

/-- A search state of `choreography_planner.py` (no filler counter in
this variant). -/
structure State where
  sequence : List String
  goals_completed : Nat
  total_time : ℚ

def get_move_duration (move : String) : ℚ :=
  (durations.lookup move).getD DEFAULT_DURATION

def can_follow (prev_move next_move : String) : Bool :=
  match predecessors.lookup next_move with
  | none => false
  | some ps => ps.contains prev_move

/-- Method `State._compute_heuristic`: sum of the durations of the goals not
yet completed. -/
def heuristic_value (s : State) : ℚ :=
  ((goals.drop s.goals_completed).map get_move_duration).sum

/-- The goal-dominant priority of `State.__init__` in
`choreography_planner.py`: uncompleted goals weighted by 1000, plus
path cost plus heuristic. -/
def priority (s : State) : ℚ :=
  ((goals.length : ℚ) - (s.goals_completed : ℚ)) * 1000 +
    s.total_time + heuristic_value s

/-- The accumulated `valid_moves` list of `get_valid_next_moves` in
`choreography_planner.py`, before `list(set(valid_moves))`.  This
variant iterates the catalog in dict insertion order (no `sorted`). -/
def valid_moves_acc (current_move : String) (goals_completed : Nat)
    (sequence : List String) : List String :=
  if goals.length ≤ goals_completed ∧ ALLOW_POST_FILL = false then []
  else
    (match goals[goals_completed]? with
     | some next_goal => if can_follow current_move next_goal then [next_goal] else []
     | none => []) ++
    (predecessors.filterMap fun mp =>
      if mp.1 ∉ goals.take goals_completed ∧ current_move ∈ mp.2 ∧
         ¬(MAX_CONSECUTIVE_REPEATS ≤ sequence.length ∧
           ∀ x ∈ lastN MAX_CONSECUTIVE_REPEATS sequence, x = mp.1)
      then some mp.1 else none)

/-- Function `get_valid_next_moves` of `choreography_planner.py`; as in `Main`,
the final `list(set(valid_moves))` is modelled with first-occurrence
deduplication. -/
def get_valid_next_moves (current_move : String) (goals_completed : Nat)
    (sequence : List String) : List String :=
  (valid_moves_acc current_move goals_completed sequence).dedup

/-- The body of the `for move in next_moves` loop of `expand_state`. -/
def applyMove (s : State) (move : String) : State :=
  { sequence := s.sequence ++ [move]
    goals_completed :=
      if goals[s.goals_completed]? = some move
      then s.goals_completed + 1 else s.goals_completed
    total_time := s.total_time + get_move_duration move }

/-- Function `expand_state` of `choreography_planner.py`. -/
def expand_state (s : State) : List State :=
  if MAX_STEPS ≤ s.sequence.length then []
  else (get_valid_next_moves (s.sequence.getLastD "START")
          s.goals_completed s.sequence).map (applyMove s)

def is_valid_solution (s : State) : Bool := goals.length ≤ s.goals_completed

/-- The state `State([], 0, 0.0)` pushed first in `find_choreography`. -/
def initial_state : State := ⟨[], 0, 0⟩

/-- States reachable from the initial state by repeated expansion. -/
inductive Reach : State → Prop
  | init : Reach initial_state
  | step {s s' : State} : Reach s → s' ∈ expand_state s → Reach s'

/-- States that can enter the frontier of `find_choreography` (the
loop never expands a recorded solution). -/
inductive LoopReach : State → Prop
  | init : LoopReach initial_state
  | step {s s' : State} : LoopReach s → s.goals_completed < goals.length →
      s' ∈ expand_state s → LoopReach s'

structure Entry where
  pri : ℚ
  ctr : Nat
  st : State

structure SearchConfig where
  pq : List Entry
  counter : Nat
  visited : List (List String × Nat)
  expansions : Nat
  solutions : List State
  best : Option State

def entryLeb (a b : Entry) : Bool :=
  decide (a.pri < b.pri) || (decide (a.pri = b.pri) && decide (a.ctr ≤ b.ctr))

def popMin : List Entry → Option (Entry × List Entry)
  | [] => none
  | e :: es =>
    match popMin es with
    | none => some (e, [])
    | some (e2, rest) => if entryLeb e e2 then some (e, es) else some (e2, e :: rest)

def pushAll : List Entry → Nat → List State → List Entry × Nat
  | pq, ctr, [] => (pq, ctr)
  | pq, ctr, st :: sts => pushAll (pq ++ [⟨priority st, ctr, st⟩]) (ctr + 1) sts

def updateBest (best : Option State) (s : State) : Option State :=
  match best with
  | none => some s
  | some b => if priority s < priority b then some s else some b

def stateKey (s : State) : List String × Nat := (s.sequence, s.goals_completed)

/-- One iteration of the `while pq` loop of `find_choreography` in
`choreography_planner.py` (same structure as in `main.py`). -/
def stepOnce (c : SearchConfig) : Option SearchConfig :=
  match popMin c.pq with
  | none => none
  | some (e, rest) =>
    if stateKey e.st ∈ c.visited then
      some { c with pq := rest }
    else
      if is_valid_solution e.st then
        some { c with
          pq := rest
          visited := stateKey e.st :: c.visited
          solutions := c.solutions ++ [e.st]
          best := updateBest c.best e.st }
      else
        let pc := pushAll rest c.counter (expand_state e.st)
        some { c with
          pq := pc.1
          counter := pc.2
          visited := stateKey e.st :: c.visited
          expansions := c.expansions + 1 }

def runMoves : State → List String → State
  | s, [] => s
  | s, m :: ms => runMoves (applyMove s m) ms

def okRun : State → List String → Bool
  | _, [] => true
  | s, m :: ms =>
    decide (s.sequence.length < MAX_STEPS) &&
    decide (s.goals_completed < goals.length) &&
    (get_valid_next_moves (s.sequence.getLastD "START")
       s.goals_completed s.sequence).contains m &&
    okRun (applyMove s m) ms

end Planner

namespace Planner

theorem applyMove_sequence_p (s : State) (m : String) :
    (applyMove s m).sequence = s.sequence ++ [m] := rfl

theorem applyMove_gc_p (s : State) (m : String) :
    (applyMove s m).goals_completed =
      if goals[s.goals_completed]? = some m
      then s.goals_completed + 1 else s.goals_completed := rfl

theorem applyMove_time_p (s : State) (m : String) :
    (applyMove s m).total_time = s.total_time + get_move_duration m := rfl

theorem predecessors_fst_nodup_p : (predecessors.map Prod.fst).Nodup := by decide

theorem goals_nodup_p : goals.Nodup := by decide

/-- Every candidate produced by `get_valid_next_moves` is a legal
successor of `current_move`, and is either the privileged next goal or
passed the consecutive-repetition guard of the catalog loop. -/
theorem mem_valid_moves_p {cur : String} {gc : Nat} {seq : List String} {m : String}
    (h : m ∈ get_valid_next_moves cur gc seq) :
    can_follow cur m = true ∧
    (goals[gc]? = some m ∨
     ¬(MAX_CONSECUTIVE_REPEATS ≤ seq.length ∧
       ∀ x ∈ lastN MAX_CONSECUTIVE_REPEATS seq, x = m)) := by
  rw [get_valid_next_moves, List.mem_dedup, valid_moves_acc] at h
  split at h
  · cases h
  · rw [List.mem_append] at h
    rcases h with h | h
    · split at h
      · rename_i ng hg
        split at h
        · rename_i hcf
          obtain rfl : m = ng := List.mem_singleton.mp h
          exact ⟨hcf, Or.inl hg⟩
        · cases h
      · cases h
    · rw [List.mem_filterMap] at h
      obtain ⟨mp, hmp, hif⟩ := h
      split at hif
      · rename_i hcond
        obtain rfl : mp.1 = m := by injection hif
        obtain ⟨h1, h2, h3⟩ := hcond
        have hlk : predecessors.lookup mp.1 = some mp.2 :=
          lookup_eq_of_mem_of_nodup predecessors_fst_nodup_p hmp
        have hcf : can_follow cur mp.1 = true := by
          rw [can_follow, hlk]
          exact List.elem_eq_true_of_mem h2
        exact ⟨hcf, Or.inr h3⟩
      · cases hif

/-- Combined invariant of states reachable by repeated expansion
(`choreography_planner.py` variant). -/
def stateInv (s : State) : Prop :=
  s.goals_completed = greedyFrom goals s.sequence 0 ∧
  List.Chain (fun a b => can_follow a b = true) "START" s.sequence ∧
  s.total_time = (s.sequence.map get_move_duration).sum ∧
  noLongRun MAX_CONSECUTIVE_REPEATS s.sequence ∧
  (∀ g, goals[s.goals_completed]? = some g → s.sequence.getLast? ≠ some g)

theorem reach_stateInv_p {s : State} (h : Reach s) : stateInv s := by
  induction h with
  | init =>
    refine ⟨rfl, List.Chain.nil, rfl, noLongRun_nil _, ?_⟩
    intro g _ hcontra
    simp [initial_state] at hcontra
  | @step s s' hr hmem ih =>
    obtain ⟨ihg, ihc, iht, ihr, ihb⟩ := ih
    rw [expand_state] at hmem
    split at hmem
    · cases hmem
    · rw [List.mem_map] at hmem
      obtain ⟨m, hmv, rfl⟩ := hmem
      obtain ⟨hcf, hdisj⟩ := mem_valid_moves_p hmv
      have hrun : ∀ pre, s.sequence ≠ pre ++ List.replicate MAX_CONSECUTIVE_REPEATS m := by
        intro pre heq
        rcases hdisj with hg | hng
        · apply ihb m hg
          rw [show MAX_CONSECUTIVE_REPEATS = 2 + 1 from rfl, List.replicate_succ' (n := 2),
            ← List.append_assoc] at heq
          rw [heq, List.getLast?_concat]
        · apply hng
          obtain ⟨hlen, hdropeq⟩ := run_end_facts heq
          refine ⟨hlen, ?_⟩
          intro x hx
          rw [lastN, hdropeq] at hx
          exact List.eq_of_mem_replicate hx
      refine ⟨?_, ?_, ?_, ?_, ?_⟩
      · rw [applyMove_gc_p, applyMove_sequence_p, greedyFrom_append, ← ihg]
        rfl
      · rw [applyMove_sequence_p]
        exact chain_append_singleton ihc hcf
      · rw [applyMove_time_p, applyMove_sequence_p, List.map_append, List.sum_append, iht]
        simp
      · rw [applyMove_sequence_p]
        exact noLongRun_append ihr hrun
      · intro g hg hcontra
        rw [applyMove_sequence_p, List.getLast?_concat] at hcontra
        obtain rfl : m = g := by injection hcontra
        rw [applyMove_gc_p] at hg
        by_cases hnext : goals[s.goals_completed]? = some m
        · rw [if_pos hnext] at hg
          exact getElem?_ne_of_nodup goals_nodup_p
            (by omega : s.goals_completed ≠ s.goals_completed + 1) hnext hg rfl
        · rw [if_neg hnext] at hg
          exact hnext hg

theorem loopReach_reach_p {s : State} (h : LoopReach s) : Reach s := by
  induction h with
  | init => exact Reach.init
  | step _ _ hmem ih => exact Reach.step ih hmem

theorem okRun_loopReach_p : ∀ (ms : List String) (s : State),
    LoopReach s → okRun s ms = true → LoopReach (runMoves s ms) := by
  intro ms
  induction ms with
  | nil =>
    intro s hr _
    exact hr
  | cons m ms ih =>
    intro s hr hok
    rw [okRun, Bool.and_eq_true, Bool.and_eq_true, Bool.and_eq_true] at hok
    obtain ⟨⟨⟨hlen, hgc⟩, hcont⟩, hrest⟩ := hok
    rw [runMoves]
    apply ih (applyMove s m) _ hrest
    apply LoopReach.step hr (of_decide_eq_true hgc)
    rw [expand_state, if_neg (by have := of_decide_eq_true hlen; omega)]
    exact List.mem_map_of_mem _ (List.mem_of_elem_eq_true hcont)

theorem loopReach_gc_le_p {s : State} (h : LoopReach s) :
    s.goals_completed ≤ goals.length := by
  induction h with
  | init => exact Nat.zero_le _
  | @step s s' _ hgc hmem ih =>
    rw [expand_state] at hmem
    split at hmem
    · cases hmem
    · rw [List.mem_map] at hmem
      obtain ⟨m, _, rfl⟩ := hmem
      rw [applyMove_gc_p]
      split <;> omega

theorem loopReach_last_goal_p {s : State} (h : LoopReach s)
    (hfull : s.goals_completed = goals.length) :
    s.sequence ≠ [] ∧ s.sequence.getLast? = goals.getLast? := by
  cases h with
  | init => simp [initial_state, goals] at hfull
  | @step s0 _ hr hgc hmem =>
    rw [expand_state] at hmem
    split at hmem
    · cases hmem
    · rw [List.mem_map] at hmem
      obtain ⟨m, hmv, rfl⟩ := hmem
      rw [applyMove_sequence_p]
      rw [applyMove_gc_p] at hfull
      by_cases hnext : goals[s0.goals_completed]? = some m
      · rw [if_pos hnext] at hfull
        refine ⟨by simp, ?_⟩
        rw [List.getLast?_concat, List.getLast?_eq_getElem?]
        have hidx : goals.length - 1 = s0.goals_completed := by omega
        rw [hidx, hnext]
      · rw [if_neg hnext] at hfull
        omega

theorem stepOnce_visited_p {c : SearchConfig} {e : Entry} {rest : List Entry}
    (hpop : popMin c.pq = some (e, rest)) (hv : stateKey e.st ∈ c.visited) :
    stepOnce c = some { c with pq := rest } := by
  rw [stepOnce, hpop]
  simp only [if_pos hv]

theorem stepOnce_solution_p {c : SearchConfig} {e : Entry} {rest : List Entry}
    (hpop : popMin c.pq = some (e, rest)) (hnv : stateKey e.st ∉ c.visited)
    (hsol : goals.length ≤ e.st.goals_completed) :
    stepOnce c = some { c with
      pq := rest
      visited := stateKey e.st :: c.visited
      solutions := c.solutions ++ [e.st]
      best := updateBest c.best e.st } := by
  rw [stepOnce, hpop]
  simp only [if_neg hnv]
  rw [if_pos (show is_valid_solution e.st = true from decide_eq_true hsol)]

theorem stepOnce_expanded_p {c : SearchConfig} {e : Entry} {rest : List Entry}
    (hpop : popMin c.pq = some (e, rest)) (hnv : stateKey e.st ∉ c.visited)
    (hns : e.st.goals_completed < goals.length) :
    stepOnce c = some { c with
      pq := (pushAll rest c.counter (expand_state e.st)).1
      counter := (pushAll rest c.counter (expand_state e.st)).2
      visited := stateKey e.st :: c.visited
      expansions := c.expansions + 1 } := by
  rw [stepOnce, hpop]
  simp only [if_neg hnv]
  rw [if_neg (show ¬is_valid_solution e.st = true from by
    rw [is_valid_solution, decide_eq_true_iff]; omega)]

end Planner

/-- A concrete run of the `main.py` planner reaching all 11 goals:
every step is certified by `Main.okRun` (executed by `decide` in the
witnesses below). -/
def mainWitnessMoves : List String :=
  ["StandInit", "Hello", "BlowKisses", "StandZero", "StayingAlive", "WipeForehead",
   "Dab", "Sit", "StandZero", "Wave", "VOnEyes", "Dab", "Stand", "SitRelax",
   "Stand", "Dab", "Crouch"]

def mainWitnessState : Main.State := Main.runMoves Main.initial_state mainWitnessMoves

/-- In `choreography_planner.py` the goal list itself is a valid run:
each goal may directly follow the previous one. -/
def plannerWitnessState : Planner.State :=
  Planner.runMoves Planner.initial_state Planner.goals

/-- The content of claim C1 at one state: `goals_completed` is the
length of the longest prefix of the goal list occurring, in order, as a
not necessarily contiguous subsequence of the sequence; and a complete
state contains the whole goal list as such a subsequence. -/
def Main.goalsPrefixProp (s : Main.State) : Prop :=
  (Main.goals.take s.goals_completed).Sublist s.sequence ∧
  s.goals_completed ≤ Main.goals.length ∧
  (∀ k, k ≤ Main.goals.length → (Main.goals.take k).Sublist s.sequence →
    k ≤ s.goals_completed) ∧
  (s.goals_completed = Main.goals.length → Main.goals.Sublist s.sequence)

/-- C1 property for the `choreography_planner.py` variant. -/
def Planner.goalsPrefixProp (s : Planner.State) : Prop :=
  (Planner.goals.take s.goals_completed).Sublist s.sequence ∧
  s.goals_completed ≤ Planner.goals.length ∧
  (∀ k, k ≤ Planner.goals.length → (Planner.goals.take k).Sublist s.sequence →
    k ≤ s.goals_completed) ∧
  (s.goals_completed = Planner.goals.length → Planner.goals.Sublist s.sequence)

/-- C1: in both planners, for every state reachable from the initial
empty state by repeated expansion, `goals_completed` equals the length
of the longest prefix of the goal list appearing in order as a (not
necessarily contiguous) subsequence of the state's sequence; appending
a move increments `goals_completed` iff the move equals
`GoalList[goalsCompleted]`; and a state with all goals completed
contains the full goal list as an order-preserving subsequence. -/
theorem C1_goal_prefix_invariant :
    (∀ s : Main.State, Main.Reach s → Main.goalsPrefixProp s) ∧
    (∀ (s s' : Main.State), s' ∈ Main.expand_state s →
      ∃ m, s'.sequence = s.sequence ++ [m] ∧
        (s'.goals_completed = s.goals_completed + 1 ↔
          Main.goals[s.goals_completed]? = some m) ∧
        (s'.goals_completed = s.goals_completed + 1 ∨
          s'.goals_completed = s.goals_completed)) ∧
    (∀ s : Planner.State, Planner.Reach s → Planner.goalsPrefixProp s) ∧
    (∀ (s s' : Planner.State), s' ∈ Planner.expand_state s →
      ∃ m, s'.sequence = s.sequence ++ [m] ∧
        (s'.goals_completed = s.goals_completed + 1 ↔
          Planner.goals[s.goals_completed]? = some m) ∧
        (s'.goals_completed = s.goals_completed + 1 ∨
          s'.goals_completed = s.goals_completed)) := by
  refine ⟨?_, ?_, ?_, ?_⟩
  · intro s hs
    have hg := (Main.reach_stateInv hs).1
    have h1 : (Main.goals.take s.goals_completed).Sublist s.sequence := by
      rw [hg]
      simpa using greedyFrom_take_sublist Main.goals s.sequence 0 (Nat.zero_le _)
    have h2 : s.goals_completed ≤ Main.goals.length := by
      rw [hg]
      exact greedyFrom_le_length Main.goals s.sequence 0 (Nat.zero_le _)
    refine ⟨h1, h2, ?_, ?_⟩
    · intro k hk hsub
      rw [hg]
      simpa using greedyFrom_ge_of_sublist Main.goals s.sequence 0 k
        (by simpa using hk) (by simpa using hsub)
    · intro hfull
      rw [hfull, List.take_length] at h1
      exact h1
  · intro s s' hmem
    rw [Main.expand_state] at hmem
    split at hmem
    · cases hmem
    · rw [List.mem_map] at hmem
      obtain ⟨m, _, rfl⟩ := hmem
      refine ⟨m, rfl, ?_, ?_⟩
      · rw [Main.applyMove_gc]
        by_cases hnext : Main.goals[s.goals_completed]? = some m
        · simp [hnext]
        · simp [hnext]
      · rw [Main.applyMove_gc]
        split
        · exact Or.inl rfl
        · exact Or.inr rfl
  · intro s hs
    have hg := (Planner.reach_stateInv_p hs).1
    have h1 : (Planner.goals.take s.goals_completed).Sublist s.sequence := by
      rw [hg]
      simpa using greedyFrom_take_sublist Planner.goals s.sequence 0 (Nat.zero_le _)
    have h2 : s.goals_completed ≤ Planner.goals.length := by
      rw [hg]
      exact greedyFrom_le_length Planner.goals s.sequence 0 (Nat.zero_le _)
    refine ⟨h1, h2, ?_, ?_⟩
    · intro k hk hsub
      rw [hg]
      simpa using greedyFrom_ge_of_sublist Planner.goals s.sequence 0 k
        (by simpa using hk) (by simpa using hsub)
    · intro hfull
      rw [hfull, List.take_length] at h1
      exact h1
  · intro s s' hmem
    rw [Planner.expand_state] at hmem
    split at hmem
    · cases hmem
    · rw [List.mem_map] at hmem
      obtain ⟨m, _, rfl⟩ := hmem
      refine ⟨m, rfl, ?_, ?_⟩
      · rw [Planner.applyMove_gc_p]
        by_cases hnext : Planner.goals[s.goals_completed]? = some m
        · simp [hnext]
        · simp [hnext]
      · rw [Planner.applyMove_gc_p]
        split
        · exact Or.inl rfl
        · exact Or.inr rfl

/-- C1 witness: the invariant instantiated at two concrete reachable
full-solution states, one per planner variant. -/
theorem C1_witness :
    Main.goalsPrefixProp mainWitnessState ∧
    Planner.goalsPrefixProp plannerWitnessState :=
  ⟨C1_goal_prefix_invariant.1 mainWitnessState
      (Main.loopReach_reach
        (Main.okRun_loopReach mainWitnessMoves Main.initial_state
          Main.LoopReach.init (by decide))),
   C1_goal_prefix_invariant.2.2.1 plannerWitnessState
      (Planner.loopReach_reach_p
        (Planner.okRun_loopReach_p Planner.goals Planner.initial_state
          Planner.LoopReach.init (by decide)))⟩

/-- C2: in both planners, every reachable state's sequence (hence every
produced solution) is a chain under the predecessor relation starting
from the sentinel `START`: each adjacent pair `(a, b)` satisfies
`can_follow a b` (i.e. `a ∈ predecessorsOf(b)`), and the first move of
a non-empty sequence has `START` in its predecessor set. -/
theorem C2_precedence_validity :
    (∀ s : Main.State, Main.Reach s →
      List.Chain (fun a b => Main.can_follow a b = true) "START" s.sequence ∧
      (∀ b rest2, s.sequence = b :: rest2 → Main.can_follow "START" b = true)) ∧
    (∀ s : Planner.State, Planner.Reach s →
      List.Chain (fun a b => Planner.can_follow a b = true) "START" s.sequence ∧
      (∀ b rest2, s.sequence = b :: rest2 → Planner.can_follow "START" b = true)) := by
  constructor
  · intro s hs
    have hch := (Main.reach_stateInv hs).2.1
    refine ⟨hch, ?_⟩
    intro b rest2 hseq
    rw [hseq] at hch
    cases hch with
    | cons hb _ => exact hb
  · intro s hs
    have hch := (Planner.reach_stateInv_p hs).2.1
    refine ⟨hch, ?_⟩
    intro b rest2 hseq
    rw [hseq] at hch
    cases hch with
    | cons hb _ => exact hb

/-- C2 witness: the precedence chain at the two concrete reachable
solution states. -/
theorem C2_witness :
    List.Chain (fun a b => Main.can_follow a b = true) "START"
      mainWitnessState.sequence ∧
    List.Chain (fun a b => Planner.can_follow a b = true) "START"
      plannerWitnessState.sequence :=
  ⟨(C2_precedence_validity.1 mainWitnessState
      (Main.loopReach_reach
        (Main.okRun_loopReach mainWitnessMoves Main.initial_state
          Main.LoopReach.init (by decide)))).1,
   (C2_precedence_validity.2 plannerWitnessState
      (Planner.loopReach_reach_p
        (Planner.okRun_loopReach_p Planner.goals Planner.initial_state
          Planner.LoopReach.init (by decide)))).1⟩

/-- C3: in the three-tier variant (`main.py`), the priority of every
state is exactly the sum of the three spec-side penalties: the goal
penalty `goalsRemaining * 10000`, the filler penalty (nonzero only
when all goals are complete and fewer than 5 filler moves were
appended, then `(5 - fillerCount) * 100`), and the time penalty (the
signed distance of `totalTime + heuristic` outside the
`[MIN_TIME, MAX_TIME]` window, zero inside it). -/
theorem C3_three_tier_priority :
    ∀ s : Main.State, Main.priority s =
      Main.goalPenaltySpec s + Main.fillerPenaltySpec s + Main.timePenaltySpec s := by
  intro s
  simp only [Main.priority, Main.goalPenaltySpec, Main.fillerPenaltySpec,
    Main.timePenaltySpec]
  congr 1
  have hmm : Main.MIN_TIME ≤ Main.MAX_TIME := by
    rw [Main.MIN_TIME, Main.MAX_TIME]
    norm_num
  by_cases h1 : s.total_time + Main.heuristic_value s < Main.MIN_TIME
  · rw [if_pos h1]
    rw [max_eq_right (by linarith), max_eq_left (by linarith)]
    ring
  · rw [if_neg h1]
    by_cases h2 : s.total_time + Main.heuristic_value s > Main.MAX_TIME
    · rw [if_pos h2]
      rw [max_eq_left (by linarith), max_eq_right (by linarith)]
      ring
    · rw [if_neg h2]
      rw [max_eq_left (by linarith), max_eq_left (by linarith)]
      ring

/-- C4: in the goal-dominant variant (`choreography_planner.py`), the
priority of every state is `goalsRemaining * 1000 + totalTime +
heuristic`, and a state with strictly more completed goals has
strictly lower priority than a state with fewer whenever the time
components differ by less than the 1000 weight separation. -/
theorem C4_goal_dominant_priority :
    (∀ s : Planner.State, Planner.priority s =
      ((Planner.goals.length : ℚ) - (s.goals_completed : ℚ)) * 1000 +
        s.total_time + Planner.heuristic_value s) ∧
    (∀ s1 s2 : Planner.State, s2.goals_completed < s1.goals_completed →
      s1.total_time + Planner.heuristic_value s1 <
        s2.total_time + Planner.heuristic_value s2 + 1000 →
      Planner.priority s1 < Planner.priority s2) := by
  constructor
  · intro s
    rfl
  · intro s1 s2 hgc ht
    rw [Planner.priority, Planner.priority]
    have hcast : (s2.goals_completed : ℚ) + 1 ≤ (s1.goals_completed : ℚ) := by
      exact_mod_cast hgc
    nlinarith [hcast, ht]

/-- Helper for the C4 witness: the separation hypothesis at the
concrete pair (all goals done with empty sequence, versus one goal
remaining): `0 + 0 < 0 + duration(Crouch) + 1000`. -/
theorem c4_witness_separation :
    (⟨[], 11, 0⟩ : Planner.State).total_time +
        Planner.heuristic_value ⟨[], 11, 0⟩ <
      (⟨[], 10, 0⟩ : Planner.State).total_time +
        Planner.heuristic_value ⟨[], 10, 0⟩ + 1000 := by
  show (0 : ℚ) + 0 < 0 + ((30.435 : ℚ) + 0) + 1000
  norm_num

/-- C4 witness: with all 11 goals completed the priority is strictly
below a state with 10 completed goals. -/
theorem C4_witness :
    Planner.priority ⟨[], 11, 0⟩ < Planner.priority ⟨[], 10, 0⟩ :=
  C4_goal_dominant_priority.2 ⟨[], 11, 0⟩ ⟨[], 10, 0⟩ (by decide)
    c4_witness_separation

/-- C5 counterexample: with `goals_completed = 1` the next goal of
`main.py` is `"Hello"`; on the sequence `["Hello", "Hello", "Hello"]`
the most recent `MAX_CONSECUTIVE_REPEATS = 3` entries are all equal to
`"Hello"`, yet `get_valid_next_moves "Wave" 1` still includes
`"Hello"` — the privileged next-goal branch bypasses the repetition
guard, refuting the claim that the generator excludes such a move. -/
theorem C5_counterexample :
    lastN Main.MAX_CONSECUTIVE_REPEATS ["Hello", "Hello", "Hello"] =
      List.replicate Main.MAX_CONSECUTIVE_REPEATS "Hello" ∧
    Main.MAX_CONSECUTIVE_REPEATS ≤ (["Hello", "Hello", "Hello"] : List String).length ∧
    "Hello" ∈ Main.get_valid_next_moves "Wave" 1 ["Hello", "Hello", "Hello"] := by
  decide

/-- C5 (amended): in both planners no reachable sequence (hence no
produced solution) contains any move more than
`MAX_CONSECUTIVE_REPEATS` times consecutively; and whenever the most
recent `MAX_CONSECUTIVE_REPEATS` entries of the current sequence all
equal a candidate `m`, that candidate can only have come from the
privileged next-goal branch (the catalog loop excludes it). -/
theorem C5_no_long_runs :
    (∀ s : Main.State, Main.Reach s →
      noLongRun Main.MAX_CONSECUTIVE_REPEATS s.sequence) ∧
    (∀ s : Planner.State, Planner.Reach s →
      noLongRun Planner.MAX_CONSECUTIVE_REPEATS s.sequence) ∧
    (∀ (cur : String) (gc : Nat) (seq : List String) (m : String),
      m ∈ Main.get_valid_next_moves cur gc seq →
      Main.MAX_CONSECUTIVE_REPEATS ≤ seq.length →
      (∀ x ∈ lastN Main.MAX_CONSECUTIVE_REPEATS seq, x = m) →
      Main.goals[gc]? = some m) ∧
    (∀ (cur : String) (gc : Nat) (seq : List String) (m : String),
      m ∈ Planner.get_valid_next_moves cur gc seq →
      Planner.MAX_CONSECUTIVE_REPEATS ≤ seq.length →
      (∀ x ∈ lastN Planner.MAX_CONSECUTIVE_REPEATS seq, x = m) →
      Planner.goals[gc]? = some m) := by
  refine ⟨?_, ?_, ?_, ?_⟩
  · intro s hs
    exact (Main.reach_stateInv hs).2.2.2.1
  · intro s hs
    exact (Planner.reach_stateInv_p hs).2.2.2.1
  · intro cur gc seq m hmem hlen hall
    rcases (Main.mem_valid_moves hmem).2 with hg | hng
    · exact hg
    · exact absurd ⟨hlen, hall⟩ hng
  · intro cur gc seq m hmem hlen hall
    rcases (Planner.mem_valid_moves_p hmem).2 with hg | hng
    · exact hg
    · exact absurd ⟨hlen, hall⟩ hng

/-- C5 witness: the run bound at the two concrete reachable solution
states, and the exclusion clause applied at the counterexample input
(where it forces the candidate to be the next goal). -/
theorem C5_witness :
    noLongRun Main.MAX_CONSECUTIVE_REPEATS mainWitnessState.sequence ∧
    noLongRun Planner.MAX_CONSECUTIVE_REPEATS plannerWitnessState.sequence ∧
    Main.goals[(1 : Nat)]? = some "Hello" :=
  ⟨C5_no_long_runs.1 mainWitnessState
      (Main.loopReach_reach
        (Main.okRun_loopReach mainWitnessMoves Main.initial_state
          Main.LoopReach.init (by decide))),
   C5_no_long_runs.2.1 plannerWitnessState
      (Planner.loopReach_reach_p
        (Planner.okRun_loopReach_p Planner.goals Planner.initial_state
          Planner.LoopReach.init (by decide))),
   C5_no_long_runs.2.2.1 "Wave" 1 ["Hello", "Hello", "Hello"] "Hello"
      (by decide) (by decide) (by decide)⟩

/-- C6: the candidate list accumulated by `get_valid_next_moves` at
the initial expansion of `main.py` contains a duplicate, and at least
two different orderings are admissible results of the final
`list(set(valid_moves))` — the output order is not determined by the
input, it depends on Python's randomized string hash seed. -/
theorem C6_candidate_order_underdetermined :
    Main.valid_moves_acc "START" 0 [] =
      ["StandInit", "Clap", "RotationFeet", "StandInit", "Wave"] ∧
    setListAdmissible (Main.valid_moves_acc "START" 0 [])
      ["StandInit", "Clap", "RotationFeet", "Wave"] ∧
    setListAdmissible (Main.valid_moves_acc "START" 0 [])
      ["Wave", "RotationFeet", "Clap", "StandInit"] ∧
    (["StandInit", "Clap", "RotationFeet", "Wave"] : List String) ≠
      ["Wave", "RotationFeet", "Clap", "StandInit"] := by
  simp only [setListAdmissible]
  decide

/-- A popped state whose sequence already has `MAX_STEPS` moves: its
expansion is empty, yet the loop still counts one expansion. -/
def deadEndState : Main.State := ⟨List.replicate 50 "Wave", 0, 0, 0⟩

def deadEndConfig : Main.SearchConfig :=
  { pq := [⟨Main.priority deadEndState, 0, deadEndState⟩]
    counter := 1
    visited := []
    expansions := 0
    solutions := []
    best := none }

/-- C7 counterexample: popping an unvisited non-solution state whose
sequence length equals `MAX_STEPS` yields no successors (a dead end),
but `expansions` is still incremented from 0 to 1 — refuting the claim
that such a state is discarded without counting an expansion. -/
theorem C7_counterexample :
    Main.MAX_STEPS ≤ deadEndState.sequence.length ∧
    Main.expand_state deadEndState = [] ∧
    deadEndConfig.expansions = 0 ∧
    (Main.stepOnce deadEndConfig).map Main.SearchConfig.expansions = some 1 := by
  refine ⟨by decide, rfl, rfl, rfl⟩

/-- C7 (amended): in the `main.py` loop, a popped state whose key is
already visited is discarded without counting an expansion; a popped
unvisited solution is recorded without counting an expansion; and any
other popped state counts exactly one expansion — including a state
with `len(sequence) ≥ MAX_STEPS`, whose `expand_state` is empty but
which is still counted. -/
theorem C7_expansion_counting :
    ∀ (c : Main.SearchConfig) (e : Main.Entry) (rest : List Main.Entry),
      Main.popMin c.pq = some (e, rest) →
      ((Main.stateKey e.st ∈ c.visited →
          (Main.stepOnce c).map Main.SearchConfig.expansions = some c.expansions) ∧
       (Main.stateKey e.st ∉ c.visited →
          Main.goals.length ≤ e.st.goals_completed →
          (Main.stepOnce c).map Main.SearchConfig.expansions = some c.expansions) ∧
       (Main.stateKey e.st ∉ c.visited →
          e.st.goals_completed < Main.goals.length →
          (Main.stepOnce c).map Main.SearchConfig.expansions =
            some (c.expansions + 1))) := by
  intro c e rest hpop
  refine ⟨?_, ?_, ?_⟩
  · intro hv
    rw [Main.stepOnce_visited hpop hv]
    rfl
  · intro hnv hsol
    rw [Main.stepOnce_solution hpop hnv hsol]
    rfl
  · intro hnv hns
    rw [Main.stepOnce_expanded hpop hnv hns]
    rfl

/-- C7 witness: the amended counting behavior exercised on the
concrete dead-end configuration (unvisited, not a solution, at the
step bound). -/
theorem C7_witness :
    (Main.stepOnce deadEndConfig).map Main.SearchConfig.expansions =
      some (deadEndConfig.expansions + 1) :=
  (C7_expansion_counting deadEndConfig ⟨Main.priority deadEndState, 0, deadEndState⟩
      [] rfl).2.2 (by decide) (by decide)

/-- C8 counterexample: querying a target move absent from the
predecessor configuration does not signal any error: `can_follow`
returns plain `False` for the unknown target `"Moonwalk"`, the same
outcome as for the configured-but-disallowed transition
`Hello → StandInit` — the two cases are indistinguishable, refuting
the claimed distinguishable `UnknownMove` condition. -/
theorem C8_counterexample :
    Main.predecessors.lookup "Moonwalk" = none ∧
    Main.can_follow "Stand" "Moonwalk" = false ∧
    Main.can_follow "Hello" "StandInit" = false ∧
    Planner.predecessors.lookup "Moonwalk" = none ∧
    Planner.can_follow "Stand" "Moonwalk" = false := by
  decide

/-- C8 (amended): in both planners a transition whose target is
absent from the predecessor configuration is silently treated as
merely disallowed — `can_follow` returns `False`, never an error. -/
theorem C8_unknown_target_disallowed :
    (∀ prev next2 : String, Main.predecessors.lookup next2 = none →
      Main.can_follow prev next2 = false) ∧
    (∀ prev next2 : String, Planner.predecessors.lookup next2 = none →
      Planner.can_follow prev next2 = false) := by
  constructor
  · intro prev next2 h
    rw [Main.can_follow, h]
  · intro prev next2 h
    rw [Planner.can_follow, h]

/-- C8 witness: the amended behavior at the concrete unknown target. -/
theorem C8_witness :
    Main.can_follow "Wave" "Moonwalk" = false ∧
    Planner.can_follow "Wave" "Moonwalk" = false :=
  ⟨C8_unknown_target_disallowed.1 "Wave" "Moonwalk" (by decide),
   C8_unknown_target_disallowed.2 "Wave" "Moonwalk" (by decide)⟩

/-- C9: in both planners, every reachable state's `total_time` is the
exact sum of `duration(m)` over its sequence (with `DEFAULT_DURATION`
for unconfigured moves); rounding to 2 decimals happens only in the
serialized `save_solution` record, which carries the sequence and goal
count unchanged. -/
theorem C9_total_time_exact :
    (∀ s : Main.State, Main.Reach s →
      s.total_time = (s.sequence.map Main.get_move_duration).sum) ∧
    (∀ s : Main.State,
      (Main.save_solution s).total_time = Main.round2 s.total_time ∧
      (Main.save_solution s).sequence = s.sequence ∧
      (Main.save_solution s).goals_completed = s.goals_completed ∧
      (Main.save_solution s).target_time = Main.TARGET_TIME ∧
      (Main.save_solution s).time_difference =
        Main.round2 |s.total_time - Main.TARGET_TIME|) ∧
    (∀ s : Planner.State, Planner.Reach s →
      s.total_time = (s.sequence.map Planner.get_move_duration).sum) := by
  refine ⟨?_, ?_, ?_⟩
  · intro s hs
    exact (Main.reach_stateInv hs).2.2.1
  · intro s
    exact ⟨rfl, rfl, rfl, rfl, rfl⟩
  · intro s hs
    exact (Planner.reach_stateInv_p hs).2.2.1

/-- C9 witness: the exact-sum invariant at the two concrete reachable
solution states. -/
theorem C9_witness :
    mainWitnessState.total_time =
      (mainWitnessState.sequence.map Main.get_move_duration).sum ∧
    plannerWitnessState.total_time =
      (plannerWitnessState.sequence.map Planner.get_move_duration).sum :=
  ⟨C9_total_time_exact.1 mainWitnessState
      (Main.loopReach_reach
        (Main.okRun_loopReach mainWitnessMoves Main.initial_state
          Main.LoopReach.init (by decide))),
   C9_total_time_exact.2.2 plannerWitnessState
      (Planner.loopReach_reach_p
        (Planner.okRun_loopReach_p Planner.goals Planner.initial_state
          Planner.LoopReach.init (by decide)))⟩

/-- C10: in both planners, a popped unvisited state with all goals
completed is recorded as a solution with no successor pushes and no
expansion counted (so it is never expanded, even though
`ALLOW_POST_FILL = true` would let the generator offer fillers); and
every frontier-reachable state with all goals completed has a
non-empty sequence ending in the final goal-list entry — no filler
ever follows the final goal. -/
theorem C10_solutions_terminal :
    (∀ s : Main.State, Main.LoopReach s →
      s.goals_completed = Main.goals.length →
      s.sequence ≠ [] ∧ s.sequence.getLast? = Main.goals.getLast?) ∧
    (∀ (c : Main.SearchConfig) (e : Main.Entry) (rest : List Main.Entry),
      Main.popMin c.pq = some (e, rest) →
      Main.stateKey e.st ∉ c.visited →
      Main.goals.length ≤ e.st.goals_completed →
      Main.stepOnce c = some { c with
        pq := rest
        visited := Main.stateKey e.st :: c.visited
        solutions := c.solutions ++ [e.st]
        best := Main.updateBest c.best e.st }) ∧
    (∀ s : Planner.State, Planner.LoopReach s →
      s.goals_completed = Planner.goals.length →
      s.sequence ≠ [] ∧ s.sequence.getLast? = Planner.goals.getLast?) ∧
    (∀ (c : Planner.SearchConfig) (e : Planner.Entry) (rest : List Planner.Entry),
      Planner.popMin c.pq = some (e, rest) →
      Planner.stateKey e.st ∉ c.visited →
      Planner.goals.length ≤ e.st.goals_completed →
      Planner.stepOnce c = some { c with
        pq := rest
        visited := Planner.stateKey e.st :: c.visited
        solutions := c.solutions ++ [e.st]
        best := Planner.updateBest c.best e.st }) := by
  refine ⟨?_, ?_, ?_, ?_⟩
  · intro s hs hfull
    exact Main.loopReach_last_goal hs hfull
  · intro c e rest hpop hnv hsol
    exact Main.stepOnce_solution hpop hnv hsol
  · intro s hs hfull
    exact Planner.loopReach_last_goal_p hs hfull
  · intro c e rest hpop hnv hsol
    exact Planner.stepOnce_solution_p hpop hnv hsol

/-- A frontier holding exactly the concrete `main.py` solution state. -/
def mainSolutionConfig : Main.SearchConfig :=
  { pq := [⟨Main.priority mainWitnessState, 0, mainWitnessState⟩]
    counter := 1
    visited := []
    expansions := 0
    solutions := []
    best := none }

/-- A frontier holding exactly the concrete planner solution state. -/
def plannerSolutionConfig : Planner.SearchConfig :=
  { pq := [⟨Planner.priority plannerWitnessState, 0, plannerWitnessState⟩]
    counter := 1
    visited := []
    expansions := 0
    solutions := []
    best := none }

/-- C10 witness: the two concrete full-goal states end in the final
goal, and popping them records a solution without pushing successors
or counting an expansion. -/
theorem C10_witness :
    (mainWitnessState.sequence ≠ [] ∧
      mainWitnessState.sequence.getLast? = Main.goals.getLast?) ∧
    Main.stepOnce mainSolutionConfig = some { mainSolutionConfig with
      pq := []
      visited := Main.stateKey mainWitnessState :: mainSolutionConfig.visited
      solutions := mainSolutionConfig.solutions ++ [mainWitnessState]
      best := Main.updateBest mainSolutionConfig.best mainWitnessState } ∧
    (plannerWitnessState.sequence ≠ [] ∧
      plannerWitnessState.sequence.getLast? = Planner.goals.getLast?) ∧
    Planner.stepOnce plannerSolutionConfig = some { plannerSolutionConfig with
      pq := []
      visited := Planner.stateKey plannerWitnessState :: plannerSolutionConfig.visited
      solutions := plannerSolutionConfig.solutions ++ [plannerWitnessState]
      best := Planner.updateBest plannerSolutionConfig.best plannerWitnessState } :=
  ⟨C10_solutions_terminal.1 mainWitnessState
      (Main.okRun_loopReach mainWitnessMoves Main.initial_state
        Main.LoopReach.init (by decide)) (by decide),
   C10_solutions_terminal.2.1 mainSolutionConfig
      ⟨Main.priority mainWitnessState, 0, mainWitnessState⟩ [] rfl
      (by decide) (by decide),
   C10_solutions_terminal.2.2.1 plannerWitnessState
      (Planner.okRun_loopReach_p Planner.goals Planner.initial_state
        Planner.LoopReach.init (by decide)) (by decide),
   C10_solutions_terminal.2.2.2 plannerSolutionConfig
      ⟨Planner.priority plannerWitnessState, 0, plannerWitnessState⟩ [] rfl
      (by decide) (by decide)⟩
